import Mathlib

/-!
Verification of the IPLD resolver core (src/index.js) against its
natural-language specification.

The development is a shallow embedding of the JavaScript source.  JavaScript
values that flow through the resolver are modelled by the inductive `JSValue`;
`null` and `undefined` both appear as `JSValue.null` where the distinction is
irrelevant (comments note the places where it matters).  Promise rejections
and thrown exceptions are modelled by `Except String`; the exact wording of
messages raised inside external libraries is modelled, not quoted.

External collaborators are modelled per the spec, which declares them out of
scope and opaque:
  - CIDs (library `cids` 0.5.x) are pairs of a codec name string and a hash
    number; `new CID(string)` is `parseCID`; a CID instance has exactly the
    own enumerable properties `codec`, `version` and `multihash`.
  - the multicodec tables (library `multicodec`) are functions carried inside
    `Multicodec`;
  - the block service is a list of blocks with `bsGet`/`bsPut`/`bsDelete`;
    `remove` additionally takes the delete operation as a parameter, since
    the spec treats store failures as collaborator-determined;
  - IPLD formats are `Format` records of functions.
-/

/-- A CID as exposed by the `cids` library used by the source: a codec name
(`cid.codec` is the name string in cids 0.5.x) and an opaque multihash,
with value equality. -/
structure CIDv where
  codec : String
  multihash : Nat
deriving DecidableEq

/-- JavaScript values the resolver inspects: CID instances, primitives,
arrays and plain objects (own enumerable string keys, in insertion order). -/
inductive JSValue where
  | vcid : CIDv → JSValue
  | str : String → JSValue
  | num : Int → JSValue
  | bool : Bool → JSValue
  | null : JSValue
  | arr : List JSValue → JSValue
  | obj : List (String × JSValue) → JSValue

/-- Digit-string to number, `none` when empty or a non-digit appears. -/
def natOfDigitsAux : List Char → Nat → Option Nat
  | [], acc => some acc
  | c :: cs, acc =>
    if c.isDigit then natOfDigitsAux cs (acc * 10 + (c.toNat - ('0').toNat))
    else none

/-- Digit-string to number, requiring at least one digit. -/
def natOfDigits : List Char → Option Nat
  | [] => none
  | c :: cs => natOfDigitsAux (c :: cs) 0

/-- Scanner for `parseCID`: accumulate the codec name up to the first colon,
then the remaining characters must form the multihash number. -/
def parseCIDAux : List Char → List Char → Option CIDv
  | [], _ => none
  | c :: cs, nameAcc =>
    if c = ':' then
      match natOfDigits cs with
      | some n => some ⟨⟨nameAcc.reverse⟩, n⟩
      | none => none
    else parseCIDAux cs (c :: nameAcc)

/-- Model of parsing a base-encoded CID string (`new CID(str)` in `cids`):
the encoding is `codecName:multihash`.  Returns `none` for invalid strings. -/
def parseCID (s : String) : Option CIDv :=
  parseCIDAux s.data []

/-- Model of `new CID(x)` for the values the source feeds to the constructor:
a string is parsed, a CID is copied, anything else throws. -/
def newCID : JSValue → Except String CIDv
  | JSValue.str s =>
    match parseCID s with
    | some c => Except.ok c
    | none => Except.error ("Invalid CID string")
  | JSValue.vcid c => Except.ok c
  | _ => Except.error ("Invalid CID input")

/-- JavaScript `Object.keys(value)` (ES2015 `ToObject` semantics): throws a
TypeError on `null`/`undefined`; on a string or array it returns the index
keys; on a number or boolean it returns no keys; on a CID instance of
cids 0.5.x it returns the own properties set by the constructor
(`codec`, `version`, `multihash`); on a plain object its keys. -/
def objectKeysE : JSValue → Except String (List String)
  | JSValue.null => Except.error ("TypeError: Cannot convert undefined or null to object")
  | JSValue.str s => Except.ok ((List.range s.length).map (fun i => toString i))
  | JSValue.num _ => Except.ok []
  | JSValue.bool _ => Except.ok []
  | JSValue.arr xs => Except.ok ((List.range xs.length).map (fun i => toString i))
  | JSValue.obj kvs => Except.ok (kvs.map (fun kv => kv.1))
  | JSValue.vcid _ => Except.ok [("codec"), ("version"), ("multihash")]

/-- JavaScript `'/' in value`: throws a TypeError when the right operand is a
primitive; on an array or CID instance the key `/` is never present. -/
def hasSlashKey : JSValue → Except String Bool
  | JSValue.obj kvs => Except.ok (kvs.any (fun kv => kv.1 == ("/")))
  | JSValue.arr _ => Except.ok false
  | JSValue.vcid _ => Except.ok false
  | _ => Except.error ("TypeError: Cannot use the in operator on a primitive")

/-- JavaScript `value[(quoted slash)]` property read, used only after the key
was seen to be present; absent keys (unreachable there) read as undefined,
modelled by `JSValue.null`. -/
def slashIndex : JSValue → JSValue
  | JSValue.obj kvs =>
    match List.lookup ("/") kvs with
    | some v => v
    | none => JSValue.null
  | _ => JSValue.null

/-- Lines 115-117 of src/index.js: the legacy-link normalization performed on
the value returned by the codec, with JavaScript evaluation semantics —
`Object.keys(value).length === 1` first (short-circuit), then
`'/' in value`, then `value = new CID(value[(quoted slash)])`. -/
def normalizeLegacy (value : JSValue) : Except String JSValue :=
  match objectKeysE value with
  | Except.error e => Except.error e
  | Except.ok keys =>
    if keys.length == 1 then
      match hasSlashKey value with
      | Except.error e => Except.error e
      | Except.ok true =>
        match newCID (slashIndex value) with
        | Except.error e => Except.error e
        | Except.ok c => Except.ok (JSValue.vcid c)
      | Except.ok false => Except.ok value
    else Except.ok value

/-- Line 118 of src/index.js: `CID.isCID(value) ? value : null`. -/
def cidOfValue : JSValue → Option CIDv
  | JSValue.vcid c => some c
  | _ => none

/-- A raw encoded block: bytes modelled as a list of numbers. -/
abbrev Bytes := List Nat

/-- An `ipfs-block` block: a CID plus the raw bytes. -/
structure Block where
  cid : CIDv
  data : Bytes

/-- Result of a codec resolve-within-node call: `{value, remainderPath}`. -/
structure ResolveResult where
  value : JSValue
  remainderPath : String

/-- The `resolver` part of an IPLD format: its declared multicodec name and
the resolve / tree / isLink operations (spec section 6).  `isLink` returns
`none` for a falsy result and `some link` for a truthy link value. -/
structure Resolver where
  multicodec : String
  resolve : Bytes → String → Except String ResolveResult
  tree : Bytes → Except String (List String)
  isLink : Bytes → String → Except String (Option JSValue)

/-- The options object built at lines 197-201 of src/index.js and passed to
`util.cid`; `hashAlg` may be undefined (`none`). -/
structure CidOptions where
  version : Nat
  hashAlg : Option Nat
  onlyHash : Bool

/-- The `util` part of an IPLD format (spec section 6). -/
structure Util where
  serialize : JSValue → Except String Bytes
  deserialize : Bytes → Except String JSValue
  cid : JSValue → CidOptions → Except String CIDv

/-- An IPLD format object.  `defaultHashAlg` is a JavaScript property read:
`none` models the property being absent (reads as undefined).  The same
shape serves as registry value: `addFormat` stores the object literal
`{resolver, util}`, which has no `defaultHashAlg` property. -/
structure Format where
  resolver : Resolver
  util : Util
  defaultHashAlg : Option Nat

/-- The external `multicodec` module, opaque per the spec: `ofName` is
`getCode(getCodeVarint(name))`, `constant` reads a `CONSTANT_NAME` table
entry, `print` maps a code back to its name. -/
structure Multicodec where
  ofName : String → Nat
  constant : String → Nat
  print : Nat → String

/-- Mutable state of an `IPLDResolver` instance: the resolver registry and
the loader installed by the constructor. -/
structure IPLDState where
  resolvers : List (Nat × Format)
  loadFormat : Nat → Except String Format
  mc : Multicodec

/-- The loader installed by the constructor (lines 27-34 of src/index.js)
when the caller supplies none: every call throws. -/
def defaultLoadFormat (mc : Multicodec) : Nat → Except String Format :=
  fun codec => Except.error ("No resolver found for codec \"" ++ mc.print codec ++ "\"")

/-- Lines 48-63 of src/index.js, `addFormat`: derive the numeric codec from
the format resolver's declared multicodec name, fail on a duplicate, and
otherwise store the object literal `{resolver, util}` (note: it carries no
`defaultHashAlg` property, hence `none` in the stored record). -/
def addFormat (st : IPLDState) (format : Format) : Except String IPLDState :=
  let codec := st.mc.ofName format.resolver.multicodec
  match List.lookup codec st.resolvers with
  | some _ =>
    Except.error ("Resolver already exists for codec \"" ++ st.mc.print codec ++ "\"")
  | none =>
    Except.ok { st with resolvers :=
      (codec, { resolver := format.resolver, util := format.util, defaultHashAlg := none })
        :: st.resolvers }

/-- The state seen by a caller that catches the `addFormat` exception: the
thrown branch leaves the registry untouched. -/
def addFormatCaught (st : IPLDState) (format : Format) : IPLDState :=
  match addFormat st format with
  | Except.ok st1 => st1
  | Except.error _ => st

/-- Line 348 of src/index.js: upper-case the codec name and replace every
dash with an underscore, producing the multicodec constant name. -/
def normalizeCodecName (s : String) : String :=
  (s.toUpper).replace ("-") ("_")

/-- Lines 344-360 of src/index.js, `_getFormat`: normalize a string codec to
its numeric form through the multicodec table, return the registered entry
if present, otherwise invoke the loader, register and return the loaded
format itself. -/
def getFormat (st : IPLDState) (codecArg : Sum Nat String) : Except String (Format × IPLDState) :=
  let codec : Nat :=
    match codecArg with
    | Sum.inl n => n
    | Sum.inr s => st.mc.constant (normalizeCodecName s)
  match List.lookup codec st.resolvers with
  | some entry => Except.ok (entry, st)
  | none =>
    match st.loadFormat codec with
    | Except.error e => Except.error e
    | Except.ok format =>
      match addFormat st format with
      | Except.error e => Except.error e
      | Except.ok st1 => Except.ok (format, st1)

/-- The injected block store state: the list of stored blocks. -/
abbrev Store := List Block

/-- Block service read: the block whose CID matches, else a not-found error. -/
def bsGet (store : Store) (cid : CIDv) : Except String Block :=
  match List.find? (fun b => b.cid == cid) store with
  | some b => Except.ok b
  | none => Except.error ("Not Found")

/-- Block service write: the new block becomes retrievable. -/
def bsPut (store : Store) (block : Block) : Store :=
  block :: store

/-- Block service delete: removes the block for the CID, erroring when no
such block is stored. -/
def bsDelete (store : Store) (cid : CIDv) : Except String Store :=
  match List.find? (fun b => b.cid == cid) store with
  | some _ => Except.ok (List.filter (fun b => !(b.cid == cid)) store)
  | none => Except.error ("Not Found")

/-- The single step emitted by `resolve`: `{remainderPath, value}`. -/
structure ResolveStep where
  remainderPath : String
  value : JSValue

/-- Lines 111-126 of src/index.js, after the codec returned `result`:
normalize a legacy link, compute the next CID (`CID.isCID(value) ? value :
null`) and build the emitted step. -/
def stepFromResult (result : ResolveResult) : Except String (ResolveStep × Option CIDv) :=
  match normalizeLegacy result.value with
  | Except.error e => Except.error e
  | Except.ok value => Except.ok (⟨result.remainderPath, value⟩, cidOfValue value)

/-- Lines 96-127 of src/index.js, the `next` closure of `resolve`: one step of
the traversal.  Returns `none` when the iteration is done (current CID is
null).  The returned tuple is the emitted step, the registry state (the
format lookup may have registered a loaded format), the next CID and the
next path. -/
def resolveNext (ipld : IPLDState) (store : Store) :
    Option CIDv → String → Except String (Option (ResolveStep × IPLDState × Option CIDv × String))
  | none, _ => Except.ok none
  | some cid, path =>
    match getFormat ipld (Sum.inr cid.codec) with
    | Except.error e => Except.error e
    | Except.ok (format, ipld1) =>
      match bsGet store cid with
      | Except.error e => Except.error e
      | Except.ok block =>
        match format.resolver.resolve block.data path with
        | Except.error e => Except.error e
        | Except.ok result =>
          match stepFromResult result with
          | Except.error e => Except.error e
          | Except.ok (step, cid1) => Except.ok (some (step, ipld1, cid1, step.remainderPath))

/-- Caller-supplied options for `put`; a `none` field is an absent property. -/
structure PutUserOptions where
  hashAlg : Option Nat
  cidVersion : Option Nat
  onlyHash : Option Bool

/-- The resolved options object of `put` after merging; `hashAlg` can remain
undefined (`none`) when neither the caller nor the registry entry carries
one. -/
structure PutOptionsR where
  hashAlg : Option Nat
  cidVersion : Nat
  onlyHash : Bool

/-- `mergeOptions(defaultOptions, userOptions)` for `put`: caller-supplied
fields override the defaults. -/
def mergePutOptions (d : PutOptionsR) (u : PutUserOptions) : PutOptionsR :=
  { hashAlg :=
      match u.hashAlg with
      | some h => some h
      | none => d.hashAlg
    cidVersion := u.cidVersion.getD d.cidVersion
    onlyHash := u.onlyHash.getD d.onlyHash }

/-- Lines 187-195 of src/index.js: the lazy option resolution performed on the
first iteration of `put` — look up the format, take its `defaultHashAlg`
property (undefined on entries stored by `addFormat`), CID version 1 and
`onlyHash` false as defaults, and merge the caller's overrides on top. -/
def resolvePutOptions (ipld : IPLDState) (codec : Nat) (u : PutUserOptions) :
    Except String (PutOptionsR × Format × IPLDState) :=
  match getFormat ipld (Sum.inl codec) with
  | Except.error e => Except.error e
  | Except.ok (formatImpl, ipld1) =>
    let defaultOptions : PutOptionsR :=
      { hashAlg := formatImpl.defaultHashAlg, cidVersion := 1, onlyHash := false }
    Except.ok (mergePutOptions defaultOptions u, formatImpl, ipld1)

/-- Lines 362-367 of src/index.js, `_store`: look the format up by the CID's
codec name, serialize the node, and put the block. -/
def storeNode (ipld : IPLDState) (store : Store) (cid : CIDv) (node : JSValue) :
    Except String (Store × IPLDState) :=
  match getFormat ipld (Sum.inr cid.codec) with
  | Except.error e => Except.error e
  | Except.ok (format, ipld1) =>
    match format.util.serialize node with
    | Except.error e => Except.error e
    | Except.ok serialized => Except.ok (bsPut store ⟨cid, serialized⟩, ipld1)

/-- The generator state of `put`: the nodes not yet consumed and the lazily
resolved options/format pair (`undefined` before the first iteration). -/
structure PutGen where
  nodes : List JSValue
  cache : Option (PutOptionsR × Format)

/-- Lines 167-181 and 210 of src/index.js: constructing the `put` iterator
performs only argument validation (vacuous in the typed model) and touches
neither the registry nor the store — the options cache starts undefined. -/
def put (nodes : List JSValue) : PutGen :=
  { nodes := nodes, cache := none }

/-- Lines 182-208 of src/index.js: the full consumption of the `put`
generator.  On each node the cached options are used, resolved on the
first iteration only; the CID is computed under the resolved options; the
block is stored unless `onlyHash`; the CID is yielded. -/
def putRun (ipld : IPLDState) (store : Store) (nodes : List JSValue) (codec : Nat)
    (u : PutUserOptions) (cache : Option (PutOptionsR × Format)) :
    Except String (List CIDv × Store × IPLDState) :=
  match nodes with
  | [] => Except.ok ([], store, ipld)
  | node :: rest =>
    match (match cache with
           | some of => Except.ok (of, ipld)
           | none =>
             match resolvePutOptions ipld codec u with
             | Except.error e => Except.error e
             | Except.ok (o, f, ipld1) => Except.ok ((o, f), ipld1)) with
    | Except.error e => Except.error e
    | Except.ok ((o, f), ipld1) =>
      match f.util.cid node ⟨o.cidVersion, o.hashAlg, o.onlyHash⟩ with
      | Except.error e => Except.error e
      | Except.ok cid =>
        match (if o.onlyHash then Except.ok (store, ipld1)
               else storeNode ipld1 store cid node) with
        | Except.error e => Except.error e
        | Except.ok (store1, ipld2) =>
          match putRun ipld2 store1 rest codec u (some (o, f)) with
          | Except.error e => Except.error e
          | Except.ok (cids, store2, ipld3) => Except.ok (cid :: cids, store2, ipld3)

/-- Sequentially delete a list of CIDs, stopping at the first failure; used
to phrase what `remove` has done before a failing CID. -/
def deleteAll (del : Store → CIDv → Except String Store) (store : Store) :
    List CIDv → Except String Store
  | [] => Except.ok store
  | c :: rest =>
    match del store c with
    | Except.error e => Except.error e
    | Except.ok store1 => deleteAll del store1 rest

/-- Lines 228-243 of src/index.js: the full consumption of the `remove`
iterator.  The CIDs are shifted off the front one at a time; each
successful block-service delete yields that CID; a failing delete
surfaces its error and ends the sequence, the remaining CIDs never being
looked at.  The delete operation of the injected block service is a
parameter.  Returns the yielded CIDs in order, the final store, and the
terminal error if one occurred. -/
def removeRun (del : Store → CIDv → Except String Store) (store : Store) :
    List CIDv → List CIDv × Store × Option String
  | [] => ([], store, none)
  | c :: rest =>
    match del store c with
    | Except.error e => ([], store, some e)
    | Except.ok store1 =>
      match removeRun del store1 rest with
      | (ys, store2, err) => (c :: ys, store2, err)

/-- Caller-supplied options for `tree`; a `none` field is an absent
property. -/
structure TreeOptions where
  recursive : Option Bool

/-- The second JavaScript argument of `tree(cid, offsetPath, userOptions)`:
a path string, an options object, or omitted (undefined). -/
inductive TreeSecondArg where
  | path : String → TreeSecondArg
  | opts : TreeOptions → TreeSecondArg
  | undef : TreeSecondArg

/-- The per-iterator state of `tree` (lines 282-291 of src/index.js): the
pending-paths buffer, the FIFO queue of CID and base-path pairs, the
already-traversed base path and the block currently being expanded. -/
structure TreeState where
  treePaths : List String
  queue : List (CIDv × String)
  basePath : String
  block : Option Block

/-- Everything a constructed `tree` iterator closes over: the offset path,
the merged `recursive` option and the seeded traversal state. -/
structure TreeCall where
  offsetPath : String
  recursive : Bool
  state : TreeState

/-- Lines 260-289 of src/index.js after argument normalization: merge the
options onto the default `recursive: false` and seed the queue with the
root CID and the empty base path. -/
def mkTreeCall (cid : CIDv) (offsetPath : String) (userOptions : Option TreeOptions) : TreeCall :=
  let recursive :=
    match userOptions with
    | some u => u.recursive.getD false
    | none => false
  { offsetPath := offsetPath, recursive := recursive,
    state := { treePaths := [], queue := [(cid, (""))], basePath := (""), block := none } }

/-- Lines 255-260 of src/index.js, the public `tree` entry: when the second
argument is an object it is taken as the options (any third argument is
discarded) and the offset path becomes undefined; the offset path then
defaults to the empty string. -/
def tree (cid : CIDv) (arg2 : TreeSecondArg) (arg3 : Option TreeOptions) : TreeCall :=
  match arg2 with
  | TreeSecondArg.opts o => mkTreeCall cid ("") (some o)
  | TreeSecondArg.path s => mkTreeCall cid s arg3
  | TreeSecondArg.undef => mkTreeCall cid ("") arg3

/-- Lines 389-397 of src/index.js, `_maybeCID`: a CID is returned as is; a
truthy value whose slash property is not undefined is parsed as a CID;
everything else gives null. -/
def maybeCID : JSValue → Except String (Option CIDv)
  | JSValue.vcid c => Except.ok (some c)
  | JSValue.obj kvs =>
    match List.lookup ("/") kvs with
    | some v =>
      match newCID v with
      | Except.error e => Except.error e
      | Except.ok c => Except.ok (some c)
    | none => Except.ok none
  | _ => Except.ok none

/-- Lines 268-280 of src/index.js, `maybeRecurse`: ask the format of the
current block whether the path is a link; a truthy answer is normalized
through `_maybeCID`, a falsy one gives null. -/
def maybeRecurse (ipld : IPLDState) (block : Block) (treePath : String) :
    Except String (IPLDState × Option CIDv) :=
  match getFormat ipld (Sum.inr block.cid.codec) with
  | Except.error e => Except.error e
  | Except.ok (format, ipld1) =>
    match format.resolver.isLink block.data treePath with
    | Except.error e => Except.error e
    | Except.ok none => Except.ok (ipld1, none)
    | Except.ok (some link) =>
      match maybeCID link with
      | Except.error e => Except.error e
      | Except.ok r => Except.ok (ipld1, r)

/-- Lines 301-309 of src/index.js: when the buffer is empty and the queue is
not, pop the queue head, fetch and decode its node, and fill the buffer
with the format's enumerated paths.  In every other case the state passes
through unchanged. -/
def treeRefill (store : Store) (ipld : IPLDState) (st : TreeState) :
    Except String (IPLDState × TreeState) :=
  match st.treePaths, st.queue with
  | [], (c, bp) :: qs =>
    match getFormat ipld (Sum.inr c.codec) with
    | Except.error e => Except.error e
    | Except.ok (format, ipld1) =>
      match bsGet store c with
      | Except.error e => Except.error e
      | Except.ok block =>
        match format.resolver.tree block.data with
        | Except.error e => Except.error e
        | Except.ok paths =>
          Except.ok (ipld1, { treePaths := paths, queue := qs, basePath := bp, block := some block })
  | _, _ => Except.ok (ipld, st)

/-- `treePaths.shift()` as used at line 311 of src/index.js: shifting an
empty buffer yields undefined, which the subsequent string concatenation
coerces to the text "undefined". -/
def headOr : List String → String
  | [] => ("undefined")
  | t :: _ => t

/-- Lines 314-320 of src/index.js: in recursive mode, follow the popped path
through `maybeRecurse` and push the resulting CID (when there is one) with
`fullPath + slash` onto the queue; the popped path leaves the buffer in
either mode. -/
def treeFollow (recursive : Bool) (ipld : IPLDState) (st : TreeState)
    (treePath fullPath : String) : Except String (IPLDState × TreeState) :=
  let popped : TreeState := { st with treePaths := st.treePaths.tail }
  if recursive then
    match st.block with
    | none => Except.error ("no current block")
    | some block =>
      match maybeRecurse ipld block treePath with
      | Except.error e => Except.error e
      | Except.ok (ipld1, some c) =>
        Except.ok (ipld1, { popped with queue := popped.queue ++ [(c, fullPath ++ ("/"))] })
      | Except.ok (ipld1, none) => Except.ok (ipld1, popped)
  else Except.ok (ipld, popped)

/-- JavaScript `s.startsWith(pre)`, modelled over the character list (the
core string primitive does not reduce in the kernel). -/
def jsStartsWith (s pre : String) : Bool :=
  List.isPrefixOf pre.data s.data

/-- JavaScript `s.slice(n)`: drop the first `n` characters, the empty string
when `n` reaches past the end. -/
def jsSlice (s : String) (n : Nat) : String :=
  ⟨s.data.drop n⟩

/-- Lines 324-335 of src/index.js as a candidate-level function: emit the
full path exactly when it extends the offset path strictly, stripping
`offsetPath.length + 1` characters when the offset path is nonempty. -/
def emitCandidate (o fullPath : String) : Option String :=
  if jsStartsWith fullPath o ∧ o.length < fullPath.length then
    some (if 0 < o.length then jsSlice fullPath (o.length + 1) else fullPath)
  else none

/-- Lines 293-336 of src/index.js, the `next` closure of `tree`: end when
both buffer and queue are drained, refill the buffer from the queue when
needed, pop one candidate, optionally follow it as a link, and either
emit it (when it strictly extends the offset path, suitably stripped) or
move on to the next candidate.  The tail-recursive skip is fuelled; fuel
exhaustion is a modelling artifact that never occurs with fuel exceeding
the number of remaining candidates. -/
def treeNext (store : Store) (recursive : Bool) (o : String) :
    Nat → IPLDState → TreeState → Except String (Option (String × IPLDState × TreeState))
  | 0, _, _ => Except.error ("tree iteration fuel exhausted")
  | Nat.succ fuel, ipld, st =>
    if st.treePaths.isEmpty && st.queue.isEmpty then Except.ok none
    else
      match treeRefill store ipld st with
      | Except.error e => Except.error e
      | Except.ok (ipld1, st1) =>
        let treePath := headOr st1.treePaths
        let fullPath := st1.basePath ++ treePath
        match treeFollow recursive ipld1 st1 treePath fullPath with
        | Except.error e => Except.error e
        | Except.ok (ipld2, st2) =>
          if jsStartsWith fullPath o ∧ o.length < fullPath.length then
            Except.ok (some
              ((if 0 < o.length then jsSlice fullPath (o.length + 1) else fullPath), ipld2, st2))
          else treeNext store recursive o fuel ipld2 st2

/-- Full consumption of a `tree` iterator: the list of emitted paths. -/
def treeRun (store : Store) (recursive : Bool) (o : String) :
    Nat → IPLDState → TreeState → Except String (List String)
  | 0, _, _ => Except.error ("tree iteration fuel exhausted")
  | Nat.succ fuel, ipld, st =>
    match treeNext store recursive o (Nat.succ fuel) ipld st with
    | Except.error e => Except.error e
    | Except.ok none => Except.ok []
    | Except.ok (some (out, ipld1, st1)) =>
      match treeRun store recursive o fuel ipld1 st1 with
      | Except.error e => Except.error e
      | Except.ok outs => Except.ok (out :: outs)

/-- The first emitted candidate of a drained-node buffer together with the
candidates left after it; `none` when every candidate is skipped. -/
def firstEmit (o bp : String) : List String → Option (String × List String)
  | [] => none
  | t :: ts =>
    match emitCandidate o (bp ++ t) with
    | some out => some (out, ts)
    | none => firstEmit o bp ts

/-- A concrete multicodec table for witnesses: every name maps to code 113
and code 113 prints as dag-cbor. -/
def sampleMc : Multicodec :=
  { ofName := fun _ => 113, constant := fun _ => 113, print := fun _ => ("dag-cbor") }

/-- A concrete resolver for witnesses: resolving yields a terminal string
leaf, tree enumeration yields two fixed paths, nothing is a link. -/
def sampleResolver : Resolver :=
  { multicodec := ("dag-cbor")
    resolve := fun _ _ => Except.ok ⟨JSValue.str ("leaf"), ("")⟩
    tree := fun _ => Except.ok [("a"), ("a/b")]
    isLink := fun _ _ => Except.ok none }

/-- A concrete util for witnesses: the computed CID records the hash
algorithm the options carried (0 when it was undefined). -/
def sampleUtil : Util :=
  { serialize := fun _ => Except.ok []
    deserialize := fun _ => Except.error ("deserialize unused")
    cid := fun _ o =>
      Except.ok ⟨("dag-cbor"), (match o.hashAlg with | some h => h | none => 0)⟩ }

/-- A concrete format for witnesses, declaring default hash algorithm 18. -/
def sampleFormat : Format :=
  { resolver := sampleResolver, util := sampleUtil, defaultHashAlg := some 18 }

/-- A resolver instance with an empty registry and no caller loader. -/
def sampleIpld0 : IPLDState :=
  { resolvers := [], loadFormat := defaultLoadFormat sampleMc, mc := sampleMc }

/-- The witness resolver instance: `sampleFormat` registered by the code's
own `addFormat`. -/
def sampleIpld : IPLDState :=
  addFormatCaught sampleIpld0 sampleFormat

/-- Root CID for witnesses. -/
def sampleRoot : CIDv := ⟨("dag-cbor"), 1⟩

/-- A store holding one block for the root CID. -/
def sampleStore : Store := [⟨sampleRoot, []⟩]

/-- C2: the claim says legacy link normalization never raises and passes any
non-link-shaped value (a string, a number, null, ...) through unchanged.
The code violates this: evaluating the single-key test throws a TypeError
on null or undefined, and the membership test throws on one-character
strings; numbers, booleans and longer strings do pass through unchanged.
This contradicts the passthrough intent the code itself documents, so the
claim stands and the code is wrong. -/
theorem normalizeLegacy_raises_on_primitives :
    normalizeLegacy JSValue.null =
        Except.error ("TypeError: Cannot convert undefined or null to object")
    ∧ normalizeLegacy (JSValue.str ("a")) =
        Except.error ("TypeError: Cannot use the in operator on a primitive")
    ∧ normalizeLegacy (JSValue.num 5) = Except.ok (JSValue.num 5)
    ∧ normalizeLegacy (JSValue.str ("ab")) = Except.ok (JSValue.str ("ab"))
    ∧ normalizeLegacy (JSValue.bool true) = Except.ok (JSValue.bool true) :=
  ⟨rfl, rfl, rfl, rfl, rfl⟩

/-- C1: a value that is structurally a single-key mapping with key slash is
normalized to a CID before being emitted, so a resolve step whose codec
returned the legacy encoding behaves exactly like one that returned the
native CID: same emitted step, same link followed next. -/
theorem resolve_normalizes_legacy_link (s : String) (c : CIDv) (p : String)
    (hs : parseCID s = some c) :
    stepFromResult ⟨JSValue.obj [(("/"), JSValue.str s)], p⟩ =
        stepFromResult ⟨JSValue.vcid c, p⟩
    ∧ stepFromResult ⟨JSValue.obj [(("/"), JSValue.str s)], p⟩ =
        Except.ok (⟨p, JSValue.vcid c⟩, some c)
    ∧ (∀ ipld store c0 p0 fmt ipld1 blk,
        getFormat ipld (Sum.inr c0.codec) = Except.ok (fmt, ipld1) →
        bsGet store c0 = Except.ok blk →
        fmt.resolver.resolve blk.data p0 =
          Except.ok ⟨JSValue.obj [(("/"), JSValue.str s)], p⟩ →
        resolveNext ipld store (some c0) p0 =
          Except.ok (some (⟨p, JSValue.vcid c⟩, ipld1, some c, p))) := by
  have hmatch : normalizeLegacy (JSValue.obj [(("/"), JSValue.str s)]) =
      (match newCID (JSValue.str s) with
       | Except.error e => Except.error e
       | Except.ok c1 => Except.ok (JSValue.vcid c1)) := rfl
  have hnew : newCID (JSValue.str s) = Except.ok c := by
    rw [show newCID (JSValue.str s) =
        (match parseCID s with
         | some c1 => Except.ok c1
         | none => Except.error ("Invalid CID string")) from rfl, hs]
  have hn : normalizeLegacy (JSValue.obj [(("/"), JSValue.str s)]) =
      Except.ok (JSValue.vcid c) := by
    rw [hmatch, hnew]
  have h2 : stepFromResult ⟨JSValue.obj [(("/"), JSValue.str s)], p⟩ =
      Except.ok (⟨p, JSValue.vcid c⟩, some c) := by
    simp only [stepFromResult, hn]
    rfl
  refine ⟨?_, h2, ?_⟩
  · rw [h2]; rfl
  · intro ipld store c0 p0 fmt ipld1 blk hg hb hr
    simp only [resolveNext, hg, hb, hr, h2]

/-- Witness for C1 at a concrete legacy-encoded link. -/
theorem resolve_normalizes_legacy_link_witness :
    stepFromResult ⟨JSValue.obj [(("/"), JSValue.str ("dag-cbor:2"))], ("rest")⟩ =
      Except.ok (⟨("rest"), JSValue.vcid ⟨("dag-cbor"), 2⟩⟩, some ⟨("dag-cbor"), 2⟩) :=
  (resolve_normalizes_legacy_link ("dag-cbor:2") ⟨("dag-cbor"), 2⟩ ("rest") (by rfl)).2.1

/-- A successful `stepFromResult` couples the next CID and next path to the
emitted step: the CID is the emitted value when that is a CID (else null)
and the path is the emitted remainder path. -/
theorem stepFromResult_ok (r : ResolveResult) (s : ResolveStep) (c? : Option CIDv)
    (h : stepFromResult r = Except.ok (s, c?)) :
    c? = cidOfValue s.value ∧ s.remainderPath = r.remainderPath := by
  unfold stepFromResult at h
  cases hn : normalizeLegacy r.value with
  | error e => rw [hn] at h; exact absurd h (by simp)
  | ok v =>
    rw [hn] at h
    have h1 := Except.ok.inj h
    injection h1 with ha hb
    subst ha
    subst hb
    exact ⟨rfl, rfl⟩

/-- A resolve step taken at a non-null CID never reports done: it either
emits a step or fails. -/
theorem resolveNext_some_ne_done (ipld : IPLDState) (store : Store) (c : CIDv) (p : String) :
    resolveNext ipld store (some c) p ≠ Except.ok none := by
  intro h
  simp only [resolveNext] at h
  split at h
  · exact Except.noConfusion h
  · split at h
    · exact Except.noConfusion h
    · split at h
      · exact Except.noConfusion h
      · split at h
        · exact Except.noConfusion h
        · exact Option.noConfusion (Except.ok.inj h)

/-- C3: after each emitted step of `resolve`, the internal CID is set to the
emitted value when that value is a CID and to null otherwise, the path
advances to the emitted remainder path, the sequence reports done exactly
at a null CID, and a non-null CID never reports done. -/
theorem resolve_sequence_link_iteration (ipld : IPLDState) (store : Store) (c : CIDv)
    (p : String) (step : ResolveStep) (ipld1 : IPLDState) (c1 : Option CIDv) (p1 : String)
    (h : resolveNext ipld store (some c) p = Except.ok (some (step, ipld1, c1, p1))) :
    (∀ q, resolveNext ipld1 store none q = Except.ok none)
    ∧ c1 = cidOfValue step.value
    ∧ p1 = step.remainderPath
    ∧ (c1 = none → resolveNext ipld1 store c1 p1 = Except.ok none)
    ∧ (∀ c2, c1 = some c2 → resolveNext ipld1 store c1 p1 ≠ Except.ok none) := by
  have hmain : c1 = cidOfValue step.value ∧ p1 = step.remainderPath := by
    simp only [resolveNext] at h
    split at h
    · exact absurd h (by simp)
    · split at h
      · exact absurd h (by simp)
      · split at h
        · exact absurd h (by simp)
        · split at h
          · exact absurd h (by simp)
          · rename_i hsf
            have h1 := Option.some.inj (Except.ok.inj h)
            injection h1 with ha hrest
            injection hrest with hb2 hrest2
            injection hrest2 with hc2 hd2
            subst ha
            subst hc2
            subst hd2
            exact ⟨(stepFromResult_ok _ _ _ hsf).1, rfl⟩
  refine ⟨fun q => rfl, hmain.1, hmain.2, ?_, ?_⟩
  · intro hc
    subst hc
    rfl
  · intro c2 hc2 hcon
    rw [hc2] at hcon
    exact resolveNext_some_ne_done ipld1 store c2 p1 hcon

/-- Witness for C3 at a concrete one-step resolution ending in a terminal
string value. -/
theorem resolve_sequence_link_iteration_witness :
    (∀ q, resolveNext sampleIpld sampleStore none q = Except.ok none)
    ∧ (none : Option CIDv) = cidOfValue (ResolveStep.mk ("") (JSValue.str ("leaf"))).value
    ∧ ("") = (ResolveStep.mk ("") (JSValue.str ("leaf"))).remainderPath
    ∧ ((none : Option CIDv) = none →
        resolveNext sampleIpld sampleStore none ("") = Except.ok none)
    ∧ (∀ c2, (none : Option CIDv) = some c2 →
        resolveNext sampleIpld sampleStore none ("") ≠ Except.ok none) :=
  resolve_sequence_link_iteration sampleIpld sampleStore sampleRoot ("x")
    ⟨(""), JSValue.str ("leaf")⟩ sampleIpld none ("") (by rfl)

/-- C5: a second `addFormat` for an already-registered codec identifier fails
with the duplicate-resolver error before touching the registry, so the
first registration (and every other registration) stays intact. -/
theorem addFormat_duplicate_fails (st : IPLDState) (f : Format) (c : Nat) (e : Format)
    (hc : st.mc.ofName f.resolver.multicodec = c)
    (hr : List.lookup c st.resolvers = some e) :
    addFormat st f =
        Except.error ("Resolver already exists for codec \"" ++ st.mc.print c ++ "\"")
    ∧ addFormatCaught st f = st
    ∧ (∀ c2, List.lookup c2 (addFormatCaught st f).resolvers = List.lookup c2 st.resolvers) := by
  have h1 : addFormat st f =
      Except.error ("Resolver already exists for codec \"" ++ st.mc.print c ++ "\"") := by
    simp only [addFormat]
    rw [hc, hr]
  have h2 : addFormatCaught st f = st := by
    unfold addFormatCaught
    rw [h1]
  exact ⟨h1, h2, fun c2 => by rw [h2]⟩

/-- Witness for C5: re-registering the sample format against the sample
instance fails and leaves the registry as it was. -/
theorem addFormat_duplicate_fails_witness :
    addFormat sampleIpld sampleFormat =
        Except.error ("Resolver already exists for codec \""
          ++ sampleIpld.mc.print 113 ++ "\"")
    ∧ addFormatCaught sampleIpld sampleFormat = sampleIpld
    ∧ (∀ c2, List.lookup c2 (addFormatCaught sampleIpld sampleFormat).resolvers
        = List.lookup c2 sampleIpld.resolvers) :=
  addFormat_duplicate_fails sampleIpld sampleFormat 113
    { resolver := sampleResolver, util := sampleUtil, defaultHashAlg := none }
    (by rfl) (by rfl)

/-- C6: a registered codec identifier is looked up from the registry itself,
returning the stored entry and an unchanged state — independently of any
installed loader, so the loader is not invoked and repeated lookups give
the same entry; an unregistered identifier with the default (absent)
loader fails with the no-resolver error. -/
theorem getFormat_registered_stable (st : IPLDState) (c : Nat) :
    (∀ fmt, List.lookup c st.resolvers = some fmt →
      getFormat st (Sum.inl c) = Except.ok (fmt, st)
      ∧ (∀ L, getFormat { st with loadFormat := L } (Sum.inl c) =
          Except.ok (fmt, { st with loadFormat := L })))
    ∧ (List.lookup c st.resolvers = none →
        st.loadFormat = defaultLoadFormat st.mc →
        getFormat st (Sum.inl c) =
          Except.error ("No resolver found for codec \"" ++ st.mc.print c ++ "\"")) := by
  constructor
  · intro fmt hf
    constructor
    · simp only [getFormat]
      rw [hf]
    · intro L
      simp only [getFormat]
      rw [hf]
  · intro hn hl
    simp only [getFormat]
    rw [hn, hl]
    rfl

/-- Witness for C6: the sample registry resolves codec 113 to the stored
entry with and without a loader installed, and an empty registry with the
default loader fails with the no-resolver error. -/
theorem getFormat_registered_stable_witness :
    (getFormat sampleIpld (Sum.inl 113) =
        Except.ok ({ resolver := sampleResolver, util := sampleUtil, defaultHashAlg := none },
          sampleIpld))
    ∧ (getFormat sampleIpld0 (Sum.inl 113) =
        Except.error ("No resolver found for codec \"" ++ sampleIpld0.mc.print 113 ++ "\"")) :=
  ⟨((getFormat_registered_stable sampleIpld 113).1
      { resolver := sampleResolver, util := sampleUtil, defaultHashAlg := none } (by rfl)).1,
   (getFormat_registered_stable sampleIpld0 113).2 (by rfl) (by rfl)⟩

/-- C4: the claim says the lazily resolved defaults carry the format's
declared default hash algorithm, so that with no caller override the CID
computation uses `defaultHashAlg`.  The code reads `defaultHashAlg` off
the registry entry, but `addFormat` stored only `{resolver, util}`, so the
read yields undefined: with no caller override the codec's CID operation
receives an undefined hash algorithm (the sample util records the
received algorithm in the multihash, 0 standing for undefined, while the
format declares 18).  Construction of the writer resolves nothing
(`put` leaves the cache undefined), options are resolved on the first
item with CID version 1 and onlyHash false, and a caller override is
honored — only the default-hash-algorithm clause fails. -/
theorem put_defaultHashAlg_dropped :
    sampleFormat.defaultHashAlg = some 18
    ∧ (put [JSValue.num 1]).cache = none
    ∧ resolvePutOptions sampleIpld 113 ⟨none, none, none⟩ =
        Except.ok ({ hashAlg := none, cidVersion := 1, onlyHash := false },
          { resolver := sampleResolver, util := sampleUtil, defaultHashAlg := none },
          sampleIpld)
    ∧ putRun sampleIpld [] [JSValue.num 1] 113 ⟨none, none, none⟩ none =
        Except.ok ([⟨("dag-cbor"), 0⟩], [⟨⟨("dag-cbor"), 0⟩, []⟩], sampleIpld)
    ∧ resolvePutOptions sampleIpld 113 ⟨some 99, none, none⟩ =
        Except.ok ({ hashAlg := some 99, cidVersion := 1, onlyHash := false },
          { resolver := sampleResolver, util := sampleUtil, defaultHashAlg := none },
          sampleIpld)
    ∧ (none : Option Nat) ≠ sampleFormat.defaultHashAlg :=
  ⟨rfl, rfl, rfl, rfl, rfl, by decide⟩

/-- Options resolved by the first `put` iteration have the caller's
`onlyHash: true` in force. -/
theorem resolvePutOptions_onlyHash (ipld : IPLDState) (codec : Nat) (u : PutUserOptions)
    (o : PutOptionsR) (f : Format) (ipld1 : IPLDState)
    (hu : u.onlyHash = some true)
    (h : resolvePutOptions ipld codec u = Except.ok (o, f, ipld1)) :
    o.onlyHash = true := by
  simp only [resolvePutOptions] at h
  split at h
  · exact absurd h (by simp)
  · have h1 := Except.ok.inj h
    injection h1 with ha hrest
    subst ha
    simp [mergePutOptions, hu]

/-- Under resolved options with `onlyHash` set, consuming `put` never calls
the store and yields one CID per node. -/
theorem putRun_some_onlyHash (nodes : List JSValue) :
    ∀ (ipld : IPLDState) (store : Store) (codec : Nat) (u : PutUserOptions)
      (o : PutOptionsR) (f : Format) (cids : List CIDv) (store' : Store) (ipld' : IPLDState),
    o.onlyHash = true →
    putRun ipld store nodes codec u (some (o, f)) = Except.ok (cids, store', ipld') →
    store' = store ∧ cids.length = nodes.length := by
  induction nodes with
  | nil =>
    intro ipld store codec u o f cids store' ipld' ho h
    simp only [putRun] at h
    have h1 := Except.ok.inj h
    injection h1 with ha hrest
    injection hrest with hb hc
    subst ha
    subst hb
    subst hc
    exact ⟨rfl, rfl⟩
  | cons node rest ih =>
    intro ipld store codec u o f cids store' ipld' ho h
    simp only [putRun, ho, if_true] at h
    split at h
    · exact absurd h (by simp)
    · split at h
      · exact absurd h (by simp)
      · rename_i hrec
        have h1 := Except.ok.inj h
        injection h1 with ha hrest
        injection hrest with hb hc
        subst ha
        subst hb
        subst hc
        have := ih _ _ _ _ _ _ _ _ _ ho hrec
        exact ⟨this.1, by simp [this.2]⟩

/-- A `put` consumption whose options are still unresolved coincides, once
the first iteration has resolved them, with the consumption that starts
from the resolved options. -/
theorem putRun_none_step (ipld : IPLDState) (store : Store) (node : JSValue)
    (rest : List JSValue) (codec : Nat) (u : PutUserOptions)
    (o : PutOptionsR) (f : Format) (ipld1 : IPLDState)
    (hro : resolvePutOptions ipld codec u = Except.ok (o, f, ipld1)) :
    putRun ipld store (node :: rest) codec u none =
      putRun ipld1 store (node :: rest) codec u (some (o, f)) := by
  simp only [putRun]
  rw [hro]

/-- C7: a `put` with `onlyHash: true` yields one computed CID per input node
and leaves the block store exactly as it was, so no block for any yielded
CID becomes retrievable that was not retrievable before. -/
theorem put_onlyHash_no_store (ipld : IPLDState) (store : Store) (nodes : List JSValue)
    (codec : Nat) (u : PutUserOptions) (cids : List CIDv) (store' : Store) (ipld' : IPLDState)
    (hu : u.onlyHash = some true)
    (h : putRun ipld store nodes codec u none = Except.ok (cids, store', ipld')) :
    store' = store ∧ cids.length = nodes.length := by
  cases nodes with
  | nil =>
    simp only [putRun] at h
    have h1 := Except.ok.inj h
    injection h1 with ha hrest
    injection hrest with hb hc
    subst ha
    subst hb
    exact ⟨rfl, rfl⟩
  | cons node rest =>
    cases hro : resolvePutOptions ipld codec u with
    | error e =>
      rw [putRun, hro] at h
      exact absurd h (by simp)
    | ok pr =>
      obtain ⟨o, f, ipld1⟩ := pr
      rw [putRun_none_step ipld store node rest codec u o f ipld1 hro] at h
      exact putRun_some_onlyHash (node :: rest) ipld1 store codec u o f cids store' ipld'
        (resolvePutOptions_onlyHash ipld codec u o f ipld1 hu hro) h

/-- Witness for C7: a hash-only `put` of one node over the sample store
leaves it untouched and yields one CID. -/
theorem put_onlyHash_no_store_witness :
    sampleStore = sampleStore
    ∧ ([⟨("dag-cbor"), 0⟩] : List CIDv).length = ([JSValue.num 1] : List JSValue).length :=
  put_onlyHash_no_store sampleIpld sampleStore [JSValue.num 1] 113 ⟨none, none, some true⟩
    [⟨("dag-cbor"), 0⟩] sampleStore sampleIpld (by rfl) (by rfl)

/-- C8: `remove` deletes strictly in order, yielding one CID per successful
deletion; the first failing deletion surfaces its error and ends the
sequence: the store keeps the deletions made before the failure, and the
CIDs after the failing one are never attempted (the outcome does not
depend on them at all). -/
theorem remove_stops_at_first_failure (del : Store → CIDv → Except String Store)
    (cs1 : List CIDv) :
    ∀ (store st1 : Store) (cf : CIDv) (e : String) (cs2 : List CIDv),
    deleteAll del store cs1 = Except.ok st1 →
    del st1 cf = Except.error e →
    removeRun del store (cs1 ++ cf :: cs2) = (cs1, st1, some e) := by
  induction cs1 with
  | nil =>
    intro store st1 cf e cs2 hok hfail
    simp only [deleteAll] at hok
    have h := Except.ok.inj hok
    subst h
    simp only [removeRun, List.nil_append, hfail]
  | cons c cs ih =>
    intro store st1 cf e cs2 hok hfail
    simp only [deleteAll] at hok
    cases hd : del store c with
    | error e2 => rw [hd] at hok; exact absurd hok (by simp)
    | ok s1 =>
      rw [hd] at hok
      simp only [removeRun, List.cons_append, List.append_eq, hd]
      rw [ih s1 st1 cf e cs2 hok hfail]

/-- Witness for C8: deleting the stored root succeeds, a missing CID then
fails, and a third CID after the failure is never attempted. -/
theorem remove_stops_at_first_failure_witness :
    removeRun bsDelete sampleStore
        ([sampleRoot] ++ CIDv.mk ("dag-cbor") 9 :: [CIDv.mk ("dag-cbor") 7]) =
      ([sampleRoot], [], some ("Not Found")) :=
  remove_stops_at_first_failure bsDelete [sampleRoot] sampleStore []
    (CIDv.mk ("dag-cbor") 9) ("Not Found") [CIDv.mk ("dag-cbor") 7] (by rfl) (by rfl)

/-- Draining the buffered candidates of one node in non-recursive mode: the
next emission is the first candidate passing the offset filter, and the
sequence is done when every remaining candidate is skipped. -/
theorem treeNext_drain (store : Store) (o : String) (l : List String) :
    ∀ (fuel : Nat) (ipld : IPLDState) (bp : String) (blk : Block),
    l.length ≤ fuel →
    treeNext store false o (Nat.succ fuel) ipld ⟨l, [], bp, some blk⟩ =
      (match firstEmit o bp l with
       | some (out, rest) => Except.ok (some (out, ipld, ⟨rest, [], bp, some blk⟩))
       | none => Except.ok none) := by
  induction l with
  | nil =>
    intro fuel ipld bp blk hf
    simp [treeNext, firstEmit]
  | cons t ts ih =>
    intro fuel ipld bp blk hf
    simp only [treeNext, List.isEmpty_cons, Bool.false_and, Bool.false_eq_true, if_false]
    have hrefill : treeRefill store ipld ⟨t :: ts, [], bp, some blk⟩ =
        Except.ok (ipld, ⟨t :: ts, [], bp, some blk⟩) := rfl
    simp only [hrefill, headOr]
    have hfollow : treeFollow false ipld ⟨t :: ts, [], bp, some blk⟩ t (bp ++ t) =
        Except.ok (ipld, ⟨ts, [], bp, some blk⟩) := rfl
    simp only [hfollow]
    by_cases hc : jsStartsWith (bp ++ t) o = true ∧ o.length < (bp ++ t).length
    · have he : emitCandidate o (bp ++ t) =
          some (if 0 < o.length then jsSlice (bp ++ t) (o.length + 1) else bp ++ t) := by
        unfold emitCandidate
        rw [if_pos hc]
      rw [if_pos hc]
      simp only [firstEmit, he]
    · have he : emitCandidate o (bp ++ t) = none := by
        unfold emitCandidate
        rw [if_neg hc]
      rw [if_neg hc]
      have hlen : ts.length + 1 ≤ fuel := by simpa using hf
      cases fuel with
      | zero => exact absurd hlen (by omega)
      | succ f =>
        rw [ih f ipld bp blk (by omega)]
        simp only [firstEmit, he]

/-- When every candidate is skipped, the filtered output is empty. -/
theorem firstEmit_none_filterMap (o bp : String) (l : List String) :
    firstEmit o bp l = none →
    l.filterMap (fun t => emitCandidate o (bp ++ t)) = [] := by
  induction l with
  | nil => intro h; rfl
  | cons t ts ih =>
    intro h
    simp only [firstEmit] at h
    cases he : emitCandidate o (bp ++ t) with
    | some out => rw [he] at h; exact absurd h (by simp)
    | none =>
      rw [he] at h
      simp only [List.filterMap_cons, he]
      exact ih h

/-- The first emission splits the filtered output: emitted element in front,
then the output of the remaining candidates. -/
theorem firstEmit_some_spec (o bp : String) (l : List String) :
    ∀ out rest, firstEmit o bp l = some (out, rest) →
    rest.length < l.length ∧
    l.filterMap (fun t => emitCandidate o (bp ++ t)) =
      out :: rest.filterMap (fun t => emitCandidate o (bp ++ t)) := by
  induction l with
  | nil => intro out rest h; exact absurd h (by simp [firstEmit])
  | cons t ts ih =>
    intro out rest h
    simp only [firstEmit] at h
    cases he : emitCandidate o (bp ++ t) with
    | some out2 =>
      rw [he] at h
      have h1 := Option.some.inj h
      injection h1 with h2 h3
      subst h2
      subst h3
      constructor
      · simp
      · simp only [List.filterMap_cons, he]
    | none =>
      rw [he] at h
      have h1 := ih out rest h
      constructor
      · exact Nat.lt_succ_of_lt h1.1
      · simp only [List.filterMap_cons, he]
        exact h1.2

/-- Full consumption of a drained node in non-recursive mode filters the
candidates through the offset test, emitting nothing for skipped ones. -/
theorem treeRun_drain (store : Store) (o : String) :
    ∀ (fuel : Nat) (l : List String) (ipld : IPLDState) (bp : String) (blk : Block),
    l.length < fuel →
    treeRun store false o fuel ipld ⟨l, [], bp, some blk⟩ =
      Except.ok (l.filterMap (fun t => emitCandidate o (bp ++ t))) := by
  intro fuel
  induction fuel with
  | zero => intro l ipld bp blk hf; exact absurd hf (by omega)
  | succ f ihf =>
    intro l ipld bp blk hf
    simp only [treeRun]
    rw [treeNext_drain store o l f ipld bp blk (by omega)]
    cases hfe : firstEmit o bp l with
    | none =>
      rw [firstEmit_none_filterMap o bp l hfe]
    | some pr =>
      obtain ⟨out, rest⟩ := pr
      have hspec := firstEmit_some_spec o bp l out rest hfe
      simp only []
      rw [ihf rest ipld bp blk (by omega), hspec.2]

/-- The first `tree` step from the seeded state refills the buffer from the
root node and behaves like draining from its candidate list. -/
theorem treeNext_initial (store : Store) (o : String) (root : CIDv) (ipld ipld1 : IPLDState)
    (fmt : Format) (blk : Block) (t : String) (ts : List String) (f : Nat)
    (hg : getFormat ipld (Sum.inr root.codec) = Except.ok (fmt, ipld1))
    (hb : bsGet store root = Except.ok blk)
    (ht : fmt.resolver.tree blk.data = Except.ok (t :: ts))
    (hf : ts.length + 1 ≤ f) :
    treeNext store false o (Nat.succ f) ipld ⟨[], [(root, (""))], (""), none⟩ =
      (match firstEmit o ("") (t :: ts) with
       | some (out, rest) => Except.ok (some (out, ipld1, ⟨rest, [], (""), some blk⟩))
       | none => Except.ok none) := by
  have hrefill : treeRefill store ipld ⟨[], [(root, (""))], (""), none⟩ =
      Except.ok (ipld1, ⟨t :: ts, [], (""), some blk⟩) := by
    simp only [treeRefill, hg, hb, ht]
  simp only [treeNext, List.isEmpty_nil, List.isEmpty_cons, Bool.true_and, Bool.false_eq_true,
    if_false, hrefill, headOr]
  have hfollow : treeFollow false ipld1 ⟨t :: ts, [], (""), some blk⟩ t (("") ++ t) =
      Except.ok (ipld1, ⟨ts, [], (""), some blk⟩) := rfl
  simp only [hfollow]
  by_cases hc : jsStartsWith (("") ++ t) o = true ∧ o.length < (("") ++ t).length
  · have he : emitCandidate o (("") ++ t) =
        some (if 0 < o.length then jsSlice (("") ++ t) (o.length + 1) else ("") ++ t) := by
      unfold emitCandidate
      rw [if_pos hc]
    rw [if_pos hc]
    simp only [firstEmit, he]
  · have he : emitCandidate o (("") ++ t) = none := by
      unfold emitCandidate
      rw [if_neg hc]
    rw [if_neg hc]
    cases f with
    | zero => exact absurd hf (by omega)
    | succ f2 =>
      rw [treeNext_drain store o ts f2 ipld1 ("") blk (by omega)]
      simp only [firstEmit, he]

/-- C9 (amended): a candidate full path is emitted exactly when it starts
with the offset path and is strictly longer; skipped candidates produce no
output element at all; and the emitted string is the full path with its
first `offsetPath.length + 1` characters removed (the offset path plus the
following separator) when the offset path is nonempty, the untouched full
path when it is empty.  The run-level equation shows the non-recursive
enumeration of a root node is exactly the candidate list filtered this
way. -/
theorem tree_emission_filter (store : Store) (ipld ipld1 : IPLDState) (fmt : Format)
    (root : CIDv) (blk : Block) (l : List String) (o : String) (f : Nat)
    (hg : getFormat ipld (Sum.inr root.codec) = Except.ok (fmt, ipld1))
    (hb : bsGet store root = Except.ok blk)
    (ht : fmt.resolver.tree blk.data = Except.ok l)
    (hne : l ≠ [])
    (hf : l.length ≤ f) :
    treeRun store false o (Nat.succ f) ipld ⟨[], [(root, (""))], (""), none⟩ =
      Except.ok (l.filterMap (emitCandidate o))
    ∧ (∀ fp : String, (emitCandidate o fp).isSome ↔
        (jsStartsWith fp o = true ∧ o.length < fp.length))
    ∧ (∀ fp out, emitCandidate o fp = some out →
        out = (if 0 < o.length then jsSlice fp (o.length + 1) else fp)) := by
  refine ⟨?_, ?_, ?_⟩
  · show treeRun store false o (Nat.succ f) ipld ⟨[], [(root, (""))], (""), none⟩ =
      Except.ok (l.filterMap (fun u => emitCandidate o (("") ++ u)))
    cases l with
    | nil => exact absurd rfl hne
    | cons t ts =>
      simp only [treeRun]
      rw [treeNext_initial store o root ipld ipld1 fmt blk t ts f hg hb ht (by simpa using hf)]
      cases hfe : firstEmit o ("") (t :: ts) with
      | none =>
        rw [firstEmit_none_filterMap o ("") (t :: ts) hfe]
      | some pr =>
        obtain ⟨out, rest⟩ := pr
        have hspec := firstEmit_some_spec o ("") (t :: ts) out rest hfe
        show (match treeRun store false o f ipld1 ⟨rest, [], (""), some blk⟩ with
          | Except.error e => Except.error e
          | Except.ok outs => Except.ok (out :: outs)) =
          Except.ok (List.filterMap (fun u => emitCandidate o (("") ++ u)) (t :: ts))
        rw [treeRun_drain store o f rest ipld1 ("") blk (by omega), hspec.2]
  · intro fp
    unfold emitCandidate
    by_cases hc : jsStartsWith fp o = true ∧ o.length < fp.length
    · rw [if_pos hc]; simp [hc]
    · rw [if_neg hc]; simp [hc]
  · intro fp out h
    unfold emitCandidate at h
    by_cases hc : jsStartsWith fp o = true ∧ o.length < fp.length
    · rw [if_pos hc] at h
      exact (Option.some.inj h).symm
    · rw [if_neg hc] at h
      exact absurd h (by simp)

/-- Counterexample to C9 as stated: for offset path a and full path a/b the
code emits b, not the slash-b string that results from stripping exactly
the offset-path prefix — the code removes one character more (the
separator). -/
theorem tree_strip_counterexample :
    emitCandidate ("a") ("a/b") = some ("b")
    ∧ jsSlice ("a/b") (("a").length) = ("/b")
    ∧ emitCandidate ("a") ("a/b") ≠ some (jsSlice ("a/b") (("a").length)) :=
  ⟨by decide, by decide, by decide⟩

/-- Witness for the amended C9 on a concrete store: offset path a skips the
candidate a and emits b for the candidate a/b. -/
theorem tree_emission_filter_witness :
    treeRun sampleStore false ("a") (Nat.succ 2) sampleIpld
        ⟨[], [(sampleRoot, (""))], (""), none⟩ =
      Except.ok (([("a"), ("a/b")] : List String).filterMap (emitCandidate ("a"))) :=
  (tree_emission_filter sampleStore sampleIpld sampleIpld
    { resolver := sampleResolver, util := sampleUtil, defaultHashAlg := none }
    sampleRoot ⟨sampleRoot, []⟩ [("a"), ("a/b")] ("a") 2
    (by rfl) (by rfl) (by rfl) (by decide) (by decide)).1

/-- C10: a `tree` call whose second argument is an options object is the same
call as one with an empty offset path and those options in third
position. -/
theorem tree_options_second_argument (cid : CIDv) (o : TreeOptions) :
    tree cid (TreeSecondArg.opts o) none = tree cid (TreeSecondArg.path ("")) (some o) := rfl
